import Mathlib

/- Verification development for the distributed training script
`src/HorovodPytorch/src/execution/ImagenetPytorchHorovod.py`.

The script is shallow-embedded below: pure helpers of the module become Lean
functions with the same names; effectful library calls (CSV reading, image
decoding) become explicit inputs or `Except`-valued oracles; the parts of the
behaviour supplied by external libraries (the epoch-seeded distributed sampler
and the collective-communication layer) are modelled from the specification,
as marked in the corresponding doc comments. -/

namespace DDL

/-! ## Python strings and the DISTRIBUTED flag (source lines 45-51) -/

/-- Python `str.lower()` on a string modelled as a list of characters. -/
def pyLower (s : List Char) : List Char := s.map Char.toLower

/-- Source lines 45-49: returns `True` exactly when the character `t` occurs in
the lower-cased input, else `False`. -/
def _str_to_bool (in_str : List Char) : Bool :=
  if 't' ∈ pyLower in_str then true else false

/-- Source line 51: the module-level flag, read from the `DISTRIBUTED`
environment variable with default `"False"`. The environment is an explicit
input. -/
def _DISTRIBUTED (envDistributed : Option (List Char)) : Bool :=
  _str_to_bool (envDistributed.getD "False".toList)

/-! ## Manifest loading (source lines 57-86) -/

/-- One row of a manifest CSV: a relative file name and a 1-based class id. -/
structure Row where
  filenames : String
  num_id : Int
deriving DecidableEq

/-- POSIX `os.path.join` for two components. -/
def pathJoin (a b : String) : String :=
  if b.startsWith "/" then b
  else if a.isEmpty || a.endsWith "/" then a ++ b
  else a ++ "/" ++ b

/-- Source lines 57-58: map `path.join(data_path, x)` over a series of file
names. -/
def _append_path_to (data_path : String) (data_series : List String) : List String :=
  data_series.map (fun x => pathJoin data_path x)

/-- Source lines 61-64: read `train.csv` (the parsed rows are an explicit
input) and replace the `filenames` column by the series joined under
`data_dir/train`. -/
def _load_training (data_dir : String) (train_csv : List Row) : List Row :=
  let joined := _append_path_to (pathJoin data_dir "train") (train_csv.map (fun r => r.filenames))
  (train_csv.zip joined).map (fun rf => { rf.1 with filenames := rf.2 })

/-- Source lines 66-69: same for `validation.csv` under `data_dir/validation`. -/
def _load_validation (data_dir : String) (validation_csv : List Row) : List Row :=
  let joined := _append_path_to (pathJoin data_dir "validation") (validation_csv.map (fun r => r.filenames))
  (validation_csv.zip joined).map (fun rf => { rf.1 with filenames := rf.2 })

/-- Source lines 72-86: build the four arrays `train_X, train_labels,
validation_X, validation_labels`; the labels get 1 subtracted so that the
index starts from 0. -/
def _create_data_fn (train_path test_path : String) (train_csv validation_csv : List Row) :
    List String × List Int × List String × List Int :=
  let train_df := _load_training train_path train_csv
  let validation_df := _load_validation test_path validation_csv
  let train_X := train_df.map (fun r => r.filenames)
  let validation_X := validation_df.map (fun r => r.filenames)
  let train_labels := (train_df.map (fun r => r.num_id)).map (fun k => k - 1)
  let validation_labels := (validation_df.map (fun r => r.num_id)).map (fun k => k - 1)
  (train_X, train_labels, validation_X, validation_labels)

/-! ## The Dataset Adapter `ImageNet.__getitem__` (source lines 89-107) -/

/-- Source lines 95-104, for a dataset holding `img_locs` and `labels`.
Reading and decoding the image file (`open`, `Image.open`, `convert`) is the
oracle `openRGB`, which either yields a decoded image or fails; the method
body contains no handler, so a failure of `openRGB` is propagated unchanged.
Indexing outside the arrays raises, modelled as an `IndexError` string. -/
def ImageNet.getitem (Img : Type) (openRGB : String → Except String Img)
    (transform : Option (Img → Img)) (img_locs : List String) (labels : List Int)
    (idx : Nat) : Except String (Img × Int) :=
  match img_locs[idx]?, labels[idx]? with
  | some im_file, some label => do
      let im ← openRGB im_file
      match transform with
      | some t => pure (t im, label)
      | none => pure (im, label)
  | _, _ => Except.error "IndexError"

/-! ## The conditional horovod import and `_is_master` (source lines 51-54, 110-117) -/

/-- Source lines 53-54: `horovod.torch` is imported, binding the module name
`hvd`, only when the flag is set. -/
def hvdImported (distributed : Bool) : Bool := distributed

/-- A Python runtime error surfaced by the embedded evaluator. -/
inductive PyExcept where
  | nameError : String → PyExcept
deriving DecidableEq

/-- Evaluating `hvd.size()`: a `NameError` when `hvd` was never imported. -/
def evalHvdSize (distributed : Bool) (worldSize : Nat) : Except PyExcept Nat :=
  if hvdImported distributed then Except.ok worldSize else Except.error (PyExcept.nameError "hvd")

/-- Evaluating `hvd.rank()`: a `NameError` when `hvd` was never imported. -/
def evalHvdRank (distributed : Bool) (rank : Nat) : Except PyExcept Nat :=
  if hvdImported distributed then Except.ok rank else Except.error (PyExcept.nameError "hvd")

/-- Source lines 168-169 of `main`: the sampler construction evaluates
`hvd.size()` and `hvd.rank()` unconditionally, whatever the flag. -/
def mainSamplerArgs (distributed : Bool) (worldSize rank : Nat) : Except PyExcept (Nat × Nat) := do
  let s ← evalHvdSize distributed worldSize
  let r ← evalHvdRank distributed rank
  pure (s, r)

/-- Source lines 110-117: rank 0 is master in distributed mode, and every
process is master otherwise. -/
def _is_master (is_distributed : Bool) (hvdRank : Nat) : Bool :=
  if is_distributed then (if hvdRank == 0 then true else false) else true

/-! ## The training pipeline built by `main` (source lines 156-173) -/

/-- The state of the `ImageNet` dataset object built at lines 159-166: the
file locations and labels it will serve (the transform is an external
collaborator and carries no data from the manifests). -/
structure ImageNetData where
  img_locs : List String
  labels : List Int
deriving DecidableEq

/-- Source lines 156-166: `main` unpacks the four arrays from
`_create_data_fn` and builds the training dataset from the first two only. -/
def mainTrainPipeline (train_path test_path : String) (train_csv validation_csv : List Row) :
    ImageNetData :=
  match _create_data_fn train_path test_path train_csv validation_csv with
  | (train_X, train_y, _valid_X, _valid_y) => { img_locs := train_X, labels := train_y }

/-! ## The distributed optimizer (source lines 188-193)

Modelled from the spec: `hvd.DistributedOptimizer` is library code not under
`src/`; §4.5 of the spec states that the wrapped `step()` first performs an
all-reduce (sum-then-average) of every parameter gradient across all
replicas, then applies the update using the averaged gradient. Exact
rational arithmetic stands in for the floating-point tensors. -/

/-- Modelled from the spec: the all-reduce collective combines one gradient
contribution per replica by summing and dividing by the replica count. -/
def allreduceAvg (grads : List ℚ) : ℚ := grads.sum / grads.length

/-- A plain SGD update of one parameter. -/
def sgdStep (lr p g : ℚ) : ℚ := p - lr * g

/-- Modelled from the spec: `step()` of the wrapped optimizer, run on every
replica at once. Each replica holds its own copy of the parameter; all of
them apply the update with the single averaged gradient. -/
def distributedOptimizerStep (lr : ℚ) (params : List ℚ) (grads : List ℚ) : List ℚ :=
  params.map (fun p => sgdStep lr p (allreduceAvg grads))

/-- Modelled from the spec: `broadcast(value, root)` on a group of replicas
replaces every replica value by the root value (source line 185 broadcasts
the parameters of rank 0). With a single replica the value is unchanged. -/
def broadcastVal (vals : List ℚ) (root : Nat) : List ℚ :=
  vals.map (fun _ => vals.getD root 0)

/-! ## The event trace of `main` (source lines 120-139 and 142-201) -/

/-- The observable events of one run: `hvd.init()`, the one-time parameter
broadcast, the per-epoch `set_epoch`, and the per-batch operations of
`train`. -/
inductive Ev where
  | init | broadcast | setEpoch | zeroGrad | forward | backward | step | log
deriving DecidableEq

/-- Source line 35. -/
def _EPOCHS : Nat := 1

/-- Source lines 124-139: the body of `train` iterated over the loader, one
chunk of events per batch; a log line is emitted every 100 batches. -/
def trainTrace (nBatches : Nat) : List Ev :=
  (List.range nBatches).flatMap (fun i =>
    [Ev.zeroGrad, Ev.forward, Ev.backward, Ev.step] ++
      (if i % 100 = 0 then [Ev.log] else []))

/-- Source lines 142-201 in distributed mode: `hvd.init()`, then the single
`hvd.broadcast_parameters` call at line 185, then the epoch loop, each
iteration setting the sampler epoch and running `train`. -/
def mainTrace (nBatches : Nat) : List Ev :=
  Ev.init :: Ev.broadcast ::
    (List.range _EPOCHS).flatMap (fun _ => Ev.setEpoch :: trainTrace nBatches)

/-! ## The Distributed Sampler (source lines 168-169, 197-201)

Modelled from the spec: `torch.utils.data.distributed.DistributedSampler` is
library code not under `src/`. §4.3 of the spec: deterministically permute
all `total_samples` positions with a pseudo-random permutation seeded by
`epoch` alone, pad the permutation by wrapping it around to the next length
divisible by `world_size`, and give rank `r` the contiguous slice
`[r * shard_len, (r+1) * shard_len)`. -/

/-- One step of a linear congruential generator: the pseudo-random source
driving the shuffle. -/
def lcg (s : Nat) : Nat := (1103515245 * s + 12345) % 2147483648

/-- Fisher-Yates-style shuffle: repeatedly move the element at the
pseudo-random index to the front, re-stepping the generator. -/
def shuffleAux : Nat → List Nat → List Nat
  | _, [] => []
  | s, a :: t =>
    (a :: t).getD (s % (a :: t).length) a ::
      shuffleAux (lcg s) ((a :: t).erase ((a :: t).getD (s % (a :: t).length) a))
termination_by _ l => l.length
decreasing_by
  have hlt : s % (a :: t).length < (a :: t).length := Nat.mod_lt _ (by simp)
  have hmem : (a :: t).getD (s % (a :: t).length) a ∈ a :: t := by
    rw [List.getD_eq_getElem _ a hlt]
    exact List.getElem_mem _
  rw [List.length_erase_of_mem hmem]
  simp

/-- Modelled from the spec: `generator.manual_seed(seed)` discards the
previous generator state and installs `seed`; the sampler seeds with the
epoch number only, with no process-local entropy. -/
def manual_seed (_g seed : Nat) : Nat := seed

/-- The full epoch-seeded permutation of all positions, computed from an
arbitrary prior generator state `g` that `manual_seed` throws away. -/
def samplerPerm (g epoch total : Nat) : List Nat :=
  shuffleAux (manual_seed g epoch) (List.range total)

/-- The common shard length ceil(total / world). -/
def num_samples (total world : Nat) : Nat := (total + world - 1) / world

/-- The padded length `num_samples * world`. -/
def total_size (total world : Nat) : Nat := num_samples total world * world

/-- The permutation padded by wrapping around to length `total_size`. -/
def paddedPerm (g epoch world total : Nat) : List Nat :=
  (List.range (total_size total world)).map
    (fun i => (samplerPerm g epoch total).getD (i % total) 0)

/-- The shard of rank `rank`: the contiguous slice
`[rank * num_samples, (rank+1) * num_samples)` of the padded permutation. -/
def samplerShard (g epoch rank world total : Nat) : List Nat :=
  ((paddedPerm g epoch world total).drop (rank * num_samples total world)).take
    (num_samples total world)

/-- The un-padded shard of rank `rank`: the same slice of the bare
permutation, before padding. -/
def unpaddedShard (g epoch rank world total : Nat) : List Nat :=
  ((samplerPerm g epoch total).drop (rank * num_samples total world)).take
    (num_samples total world)

/-! ## Supporting lemmas -/

/-- Zipping a list with a mapped copy of itself and mapping over the pairs is
a single map. -/
theorem zip_map_self_map {α β γ : Type} (l : List α) (f : α → β) (g : α × β → γ) :
    ((l.zip (l.map f)).map g) = l.map (fun x => g (x, f x)) := by
  induction l with
  | nil => rfl
  | cons a t ih => simp [ih]

/-- Load of the training manifest rewrites every row by joining its file name under the
`train` subdirectory. -/
theorem load_training_eq_map (data_dir : String) (train_csv : List Row) :
    _load_training data_dir train_csv
      = train_csv.map (fun r =>
          { r with filenames := pathJoin (pathJoin data_dir "train") r.filenames }) := by
  unfold _load_training _append_path_to
  rw [List.map_map, zip_map_self_map]
  rfl

/-- Load of the validation manifest rewrites every row by joining its file name under the
`validation` subdirectory. -/
theorem load_validation_eq_map (data_dir : String) (validation_csv : List Row) :
    _load_validation data_dir validation_csv
      = validation_csv.map (fun r =>
          { r with filenames := pathJoin (pathJoin data_dir "validation") r.filenames }) := by
  unfold _load_validation _append_path_to
  rw [List.map_map, zip_map_self_map]
  rfl

/-! ## Claim theorems for the directly embedded source -/

/-- C9: the DISTRIBUTED flag is parsed by `_str_to_bool`, which returns true
exactly when the character `t` occurs in the lower-cased input; hence "1",
"yes" and "on" parse as false while "not" and "nothing" parse as true. -/
theorem str_to_bool_iff_t_mem (s : List Char) :
    (_str_to_bool s = true ↔ 't' ∈ pyLower s) ∧
    _str_to_bool "1".toList = false ∧ _str_to_bool "yes".toList = false ∧
    _str_to_bool "on".toList = false ∧ _str_to_bool "not".toList = true ∧
    _str_to_bool "nothing".toList = true := by
  refine ⟨?_, by decide, by decide, by decide, by decide, by decide⟩
  simp [_str_to_bool]

/-- C7: in the loaded Sample Index, the label at each position is the
manifest 1-based class id minus 1, and the path is the per-split data root
joined with the manifest relative file name; both for training and for
validation. -/
theorem create_data_fn_labels_paths (train_path test_path : String)
    (train_csv validation_csv : List Row) (i : Nat) :
    ((_create_data_fn train_path test_path train_csv validation_csv).2.1)[i]?
        = (train_csv[i]?).map (fun r => r.num_id - 1) ∧
    ((_create_data_fn train_path test_path train_csv validation_csv).1)[i]?
        = (train_csv[i]?).map (fun r => pathJoin (pathJoin train_path "train") r.filenames) ∧
    ((_create_data_fn train_path test_path train_csv validation_csv).2.2.2)[i]?
        = (validation_csv[i]?).map (fun r => r.num_id - 1) ∧
    ((_create_data_fn train_path test_path train_csv validation_csv).2.2.1)[i]?
        = (validation_csv[i]?).map
            (fun r => pathJoin (pathJoin test_path "validation") r.filenames) := by
  unfold _create_data_fn
  rw [load_training_eq_map, load_validation_eq_map]
  simp only [List.getElem?_map, Option.map_map]
  exact ⟨rfl, rfl, rfl, rfl⟩

/-- C10: the training pipeline that `main` builds is unchanged by the
contents of the validation manifest. -/
theorem mainTrainPipeline_ignores_validation (train_path test_path : String)
    (train_csv v1 v2 : List Row) :
    mainTrainPipeline train_path test_path train_csv v1
      = mainTrainPipeline train_path test_path train_csv v2 := rfl

/-- C8: when reading or decoding the file at a position fails, the failure
propagates out of `ImageNet.__getitem__` unchanged: no skip, no substitute
value. -/
theorem getitem_propagates_decode_error (Img : Type)
    (openRGB : String → Except String Img) (transform : Option (Img → Img))
    (img_locs : List String) (labels : List Int) (idx : Nat)
    (f : String) (lab : Int) (e : String)
    (hf : img_locs[idx]? = some f) (hl : labels[idx]? = some lab)
    (he : openRGB f = Except.error e) :
    ImageNet.getitem Img openRGB transform img_locs labels idx = Except.error e := by
  simp [ImageNet.getitem, hf, hl, he]
  rfl

/-- Witness for C8: a one-image dataset whose decode oracle fails with
`DecodeError`; the call returns exactly that error. -/
theorem getitem_propagates_decode_error_witness :
    ImageNet.getitem Unit (fun _ => Except.error "DecodeError") none
        ["img0.jpg"] [0] 0 = Except.error "DecodeError" :=
  getitem_propagates_decode_error Unit (fun _ => Except.error "DecodeError") none
    ["img0.jpg"] [0] 0 "img0.jpg" 0 "DecodeError" rfl rfl rfl

/-- C4: with DISTRIBUTED disabled, `main` does not reach a single-replica
no-op path: the sampler construction evaluates `hvd.size()` although `hvd`
was never imported and raises a NameError; of the claimed behaviours only
`_is_master` holds (always true). -/
theorem main_single_replica_name_error (worldSize rank : Nat) :
    mainSamplerArgs false worldSize rank = Except.error (PyExcept.nameError "hvd") ∧
    _is_master false rank = true := ⟨rfl, rfl⟩

/-- C6: the shard produced for an epoch is a function of the epoch, rank,
world size and sample count only: the generator state a call starts from is
discarded by `manual_seed`, whose installed seed is exactly the epoch. -/
theorem samplerShard_deterministic (g1 g2 epoch rank world total : Nat) :
    samplerShard g1 epoch rank world total = samplerShard g2 epoch rank world total ∧
    manual_seed g1 epoch = epoch := ⟨rfl, rfl⟩

/-- C3: one step of the wrapped optimizer on a 2-replica run with gradients
g1 and g2 moves every replica from p to p - lr * ((g1 + g2) / 2). -/
theorem distributedOptimizerStep_two_replicas (lr p g1 g2 : ℚ) :
    distributedOptimizerStep lr [p, p] [g1, g2]
      = [p - lr * ((g1 + g2) / 2), p - lr * ((g1 + g2) / 2)] := by
  simp [distributedOptimizerStep, sgdStep, allreduceAvg]

/-! ## C5: the broadcast happens once, before every step -/

/-- No parameter broadcast happens inside the `train` loop. -/
theorem broadcast_not_mem_trainTrace (nb : Nat) : Ev.broadcast ∉ trainTrace nb := by
  intro h
  rw [trainTrace, List.mem_flatMap] at h
  obtain ⟨i, _, hi⟩ := h
  by_cases h100 : i % 100 = 0 <;> simp [h100] at hi

/-- C5: in every execution of `main`, the parameter broadcast happens exactly
once, and no optimizer step precedes it: every prefix of the trace that
contains a step already contains the broadcast. -/
theorem mainTrace_broadcast_once_before_step (nb : Nat) :
    (mainTrace nb).count Ev.broadcast = 1 ∧
    ∀ i : Nat, Ev.step ∈ (mainTrace nb).take i → Ev.broadcast ∈ (mainTrace nb).take i := by
  constructor
  · have h := broadcast_not_mem_trainTrace nb
    simp [mainTrace, _EPOCHS, List.count_cons, List.count_eq_zero, h]
  · intro i h
    match i with
    | 0 => simp at h
    | 1 =>
      rw [mainTrace] at h
      simp [List.take_succ_cons] at h
    | (i + 2) =>
      rw [mainTrace] at h ⊢
      simp [List.take_succ_cons]

/-- Witness for C5 on a three-batch run: the broadcast count is one, and the
seven-event prefix, which does contain a step, contains the broadcast. -/
theorem mainTrace_broadcast_once_before_step_witness :
    (mainTrace 3).count Ev.broadcast = 1 ∧ Ev.broadcast ∈ (mainTrace 3).take 7 :=
  ⟨(mainTrace_broadcast_once_before_step 3).1,
   (mainTrace_broadcast_once_before_step 3).2 7 (by decide)⟩

/-! ## Sampler support lemmas -/

/-- The shuffle permutes its input. -/
theorem shuffleAux_perm (n : Nat) :
    ∀ (s : Nat) (l : List Nat), l.length ≤ n → (shuffleAux s l).Perm l := by
  induction n with
  | zero =>
    intro s l hl
    have h0 : l = [] := List.length_eq_zero.mp (Nat.le_zero.mp hl)
    subst h0
    simp [shuffleAux]
  | succ n ih =>
    intro s l hl
    match l with
    | [] => simp [shuffleAux]
    | a :: t =>
      have hlt : s % (a :: t).length < (a :: t).length := Nat.mod_lt _ (by simp)
      have hmem : (a :: t).getD (s % (a :: t).length) a ∈ a :: t := by
        rw [List.getD_eq_getElem _ a hlt]
        exact List.getElem_mem _
      have hlen : ((a :: t).erase ((a :: t).getD (s % (a :: t).length) a)).length ≤ n := by
        rw [List.length_erase_of_mem hmem]
        simp only [List.length_cons] at hl ⊢
        omega
      rw [shuffleAux]
      exact ((ih (lcg s) _ hlen).cons _).trans (List.perm_cons_erase hmem).symm

/-- The epoch-seeded permutation is a permutation of all positions. -/
theorem samplerPerm_perm (g epoch total : Nat) :
    (samplerPerm g epoch total).Perm (List.range total) :=
  shuffleAux_perm (List.range total).length _ _ (le_refl _)

/-- The permutation has one entry per position. -/
theorem samplerPerm_length (g epoch total : Nat) :
    (samplerPerm g epoch total).length = total := by
  simpa using (samplerPerm_perm g epoch total).length_eq

/-- The permutation has no duplicate. -/
theorem samplerPerm_nodup (g epoch total : Nat) : (samplerPerm g epoch total).Nodup :=
  (samplerPerm_perm g epoch total).symm.nodup (List.nodup_range _)

/-- Membership in the permutation is exactly being a position. -/
theorem mem_samplerPerm (g epoch total p : Nat) :
    p ∈ samplerPerm g epoch total ↔ p < total := by
  rw [(samplerPerm_perm g epoch total).mem_iff, List.mem_range]

/-- The padded length is at least the sample count. -/
theorem total_le_total_size (total world : Nat) (hw : 1 ≤ world) :
    total ≤ total_size total world := by
  unfold total_size num_samples
  rw [Nat.mul_comm]
  have h := Nat.div_add_mod (total + world - 1) world
  have h2 : (total + world - 1) % world < world := Nat.mod_lt _ hw
  generalize world * ((total + world - 1) / world) = P at h ⊢
  generalize (total + world - 1) % world = r at h h2
  omega

/-- The shard length is positive as soon as there is a sample. -/
theorem num_samples_pos (total world : Nat) (hw : 1 ≤ world) (ht : 1 ≤ total) :
    1 ≤ num_samples total world := by
  unfold num_samples
  rw [Nat.one_le_div_iff hw]
  omega

/-- Length of the padded permutation. -/
theorem paddedPerm_length (g epoch world total : Nat) :
    (paddedPerm g epoch world total).length = total_size total world := by
  simp [paddedPerm]

/-- The entries of the padded permutation wrap around the bare permutation. -/
theorem getElem_paddedPerm (g epoch world total i : Nat)
    (hi : i < (paddedPerm g epoch world total).length) :
    (paddedPerm g epoch world total)[i] = (samplerPerm g epoch total).getD (i % total) 0 := by
  simp [paddedPerm]

/-- Every in-range rank receives a shard of the common length. -/
theorem samplerShard_length (g epoch rank world total : Nat) (hr : rank < world) :
    (samplerShard g epoch rank world total).length = num_samples total world := by
  have hL := paddedPerm_length g epoch world total
  have key : num_samples total world + rank * num_samples total world
      ≤ total_size total world := by
    have h1 : num_samples total world * (rank + 1) ≤ num_samples total world * world :=
      mul_le_mul_left' (Nat.succ_le_of_lt hr) _
    calc num_samples total world + rank * num_samples total world
        = num_samples total world * (rank + 1) := by ring
      _ ≤ num_samples total world * world := h1
      _ = total_size total world := rfl
  rw [samplerShard, List.length_take_of_le]
  rw [List.length_drop, hL]
  omega

/-- A position is below `total` exactly when some in-range rank's shard
contains it. -/
theorem mem_shard_iff (g epoch world total p : Nat) (hw : 1 ≤ world) (ht : 1 ≤ total) :
    p < total ↔ ∃ r, r < world ∧ p ∈ samplerShard g epoch r world total := by
  constructor
  · intro hp
    have hpp : p ∈ samplerPerm g epoch total := (mem_samplerPerm g epoch total p).mpr hp
    obtain ⟨j, hj, hjp⟩ := List.mem_iff_getElem.mp hpp
    rw [samplerPerm_length] at hj
    have hnpos : 1 ≤ num_samples total world := num_samples_pos total world hw ht
    have hjts : j < total_size total world :=
      lt_of_lt_of_le hj (total_le_total_size total world hw)
    have hrw : j / num_samples total world < world := by
      rw [Nat.div_lt_iff_lt_mul hnpos]
      calc j < total_size total world := hjts
        _ = world * num_samples total world := by rw [total_size]; ring
    refine ⟨j / num_samples total world, hrw, ?_⟩
    apply List.mem_iff_getElem.mpr
    have hlen : (samplerShard g epoch (j / num_samples total world) world total).length
        = num_samples total world := samplerShard_length g epoch _ world total hrw
    have hmod : j % num_samples total world < num_samples total world := Nat.mod_lt _ hnpos
    refine ⟨j % num_samples total world, by rw [hlen]; exact hmod, ?_⟩
    have hidx : j / num_samples total world * num_samples total world
        + j % num_samples total world = j := by
      rw [Nat.mul_comm]
      exact Nat.div_add_mod j (num_samples total world)
    have hdl : j % num_samples total world
        < ((paddedPerm g epoch world total).drop
            (j / num_samples total world * num_samples total world)).length := by
      rw [List.length_drop, paddedPerm_length]
      omega
    unfold samplerShard
    rw [List.getElem_take, List.getElem_drop, getElem_paddedPerm, hidx,
      Nat.mod_eq_of_lt hj, List.getD_eq_getElem _ 0 (by rw [samplerPerm_length]; exact hj), hjp]
  · rintro ⟨r, _, hmem⟩
    have hsub : samplerShard g epoch r world total ⊆ paddedPerm g epoch world total := by
      intro x hx
      exact List.drop_subset _ _ (List.take_subset _ _ hx)
    have hp : p ∈ paddedPerm g epoch world total := hsub hmem
    rw [paddedPerm] at hp
    simp only [List.mem_map, List.mem_range] at hp
    obtain ⟨i, _, hip⟩ := hp
    have hmod : i % total < total := Nat.mod_lt _ ht
    rw [List.getD_eq_getElem _ 0 (by rw [samplerPerm_length]; exact hmod)] at hip
    have hmemp : p ∈ samplerPerm g epoch total := hip ▸ List.getElem_mem _
    exact (mem_samplerPerm g epoch total p).mp hmemp

/-- C1: for every world size and sample count at least 1 and any epoch, each
in-range rank's shard has length ceil(total / world), and the union of all
ranks' shards, as a set of positions, is exactly `[0, total)`. -/
theorem samplerShard_length_and_union (g epoch rank world total : Nat)
    (hw : 1 ≤ world) (ht : 1 ≤ total) (hr : rank < world) :
    (samplerShard g epoch rank world total).length = (total + world - 1) / world ∧
    (Finset.range world).biUnion
        (fun r => (samplerShard g epoch r world total).toFinset)
      = Finset.range total := by
  refine ⟨samplerShard_length g epoch rank world total hr, ?_⟩
  ext p
  simp only [Finset.mem_biUnion, List.mem_toFinset, Finset.mem_range]
  rw [← mem_shard_iff g epoch world total p hw ht]

/-- Witness for C1 at the spec scenario total=10, world=3, epoch=0: three
shards of length 4 = ceil(10/3) whose union covers all ten positions. -/
theorem samplerShard_length_and_union_witness :
    ((samplerShard 0 0 0 3 10).length = (10 + 3 - 1) / 3 ∧
      (Finset.range 3).biUnion (fun r => (samplerShard 0 0 r 3 10).toFinset)
        = Finset.range 10) ∧
    (samplerShard 0 0 1 3 10).length = (10 + 3 - 1) / 3 ∧
    (samplerShard 0 0 2 3 10).length = (10 + 3 - 1) / 3 :=
  ⟨samplerShard_length_and_union 0 0 0 3 10 (by decide) (by decide) (by decide),
   (samplerShard_length_and_union 0 0 1 3 10 (by decide) (by decide) (by decide)).1,
   (samplerShard_length_and_union 0 0 2 3 10 (by decide) (by decide) (by decide)).1⟩

/-- Un-padded shards of strictly ordered ranks are disjoint: they are slices
of disjoint index ranges of a duplicate-free list. -/
theorem unpaddedShard_disjoint_of_lt (g epoch r1 r2 world total : Nat) (h : r1 < r2) :
    List.Disjoint (unpaddedShard g epoch r1 world total)
      (unpaddedShard g epoch r2 world total) := by
  have hnd : (samplerPerm g epoch total).Nodup := samplerPerm_nodup g epoch total
  have hle : r1 * num_samples total world + num_samples total world
      ≤ r2 * num_samples total world := by
    have h1 : (r1 + 1) * num_samples total world ≤ r2 * num_samples total world :=
      mul_le_mul_right' (Nat.succ_le_of_lt h) _
    calc r1 * num_samples total world + num_samples total world
        = (r1 + 1) * num_samples total world := by ring
      _ ≤ r2 * num_samples total world := h1
  have hd : List.Disjoint
      ((samplerPerm g epoch total).take
        (r1 * num_samples total world + num_samples total world))
      ((samplerPerm g epoch total).drop (r2 * num_samples total world)) :=
    List.disjoint_take_drop hnd hle
  intro p hp1 hp2
  apply hd (a := p)
  · rw [unpaddedShard, List.take_drop] at hp1
    exact List.drop_subset _ _ hp1
  · exact List.take_subset _ _ hp2

/-- C2: distinct ranks with the same world size and epoch receive disjoint
un-padded shards. -/
theorem unpaddedShard_disjoint (g epoch r1 r2 world total : Nat) (hne : r1 ≠ r2) :
    List.Disjoint (unpaddedShard g epoch r1 world total)
      (unpaddedShard g epoch r2 world total) := by
  rcases Nat.lt_or_ge r1 r2 with h | h
  · exact unpaddedShard_disjoint_of_lt g epoch r1 r2 world total h
  · have h2 : r2 < r1 := by omega
    intro p hp1 hp2
    exact unpaddedShard_disjoint_of_lt g epoch r2 r1 world total h2 hp2 hp1

/-- Witness for C2: ranks 0 and 1 under world size 2 and five samples get
disjoint un-padded shards. -/
theorem unpaddedShard_disjoint_witness :
    List.Disjoint (unpaddedShard 0 0 0 2 5) (unpaddedShard 0 0 1 2 5) :=
  unpaddedShard_disjoint 0 0 0 1 2 5 (by decide)

end DDL
